import Mathlib

/-!
Shallow embedding of the christmas-tree-farm CRUD service, covering the
handlers that the verification targets: `analyzeSalesTrends_service.py`,
`addSalesRecord_service.py`, `deleteOrder_service.py`,
`deleteSalesRecord_service.py`, and the `GET /sales/trends` route wrapper in
`server.py`.

Conventions of the embedding:
- Python dictionaries (which preserve insertion order; a key keeps the
  position of its first insertion) are modelled as association lists with
  the corresponding update discipline.
- Python exceptions are modelled with `Except PyError`; a function that can
  raise returns `Except PyError α`.
- The entity store (prisma/relational database) is external: a read is
  modelled by passing the rows it returned as an argument, and writes are
  modelled as explicit state passing over a record of tables.
- Machine integers are Python arbitrary-precision ints, so `Int` is exact.
-/

/-- Members of the generated prisma `Role` enum. The source of
`analyzeSalesTrends_service.py` also references a member named
`AnalyticsManager`, but the in-source type-check annotation at lines 56-57
records that the generated enum has no such member (while the same tool
accepts every member below), so it is not a constructor here: accessing it
at runtime raises `AttributeError`. -/
inductive Role where
  | Admin
  | CustomerServiceRepresentative
  | HumanResourcesManager
  | InventoryManager
  | OrderFulfillmentOfficer
  | SalesManager
  | SupplyChainCoordinator
deriving DecidableEq, Repr

/-- The fields of `prisma.models.User` that the embedded handlers read. -/
structure User where
  id : Nat
  role : Role
deriving DecidableEq, Repr

/-- Python exception values observed in the embedded handlers. `storeError`
stands for a failure raised by the external entity store inside one of its
calls (e.g. a failed `create`). In the `attributeError` and `nameError`
messages CPython puts quotes around the offending name; the quotes are
dropped here. -/
inductive PyError where
  | permissionError (msg : String)
  | valueError (msg : String)
  | nameError (msg : String)
  | attributeError (msg : String)
  | storeError (msg : String)
deriving DecidableEq, Repr

/-- Python `str(e)`: the message carried by the exception. -/
def PyError.message : PyError → String
  | .permissionError m => m
  | .valueError m => m
  | .nameError m => m
  | .attributeError m => m
  | .storeError m => m

/-- The year and month of `Order.placedAt`; the only parts of the timestamp
that `analyzeSalesTrends` reads (via `strftime` with format `%Y-%m`). -/
structure DateTime where
  year : Nat
  month : Nat
deriving DecidableEq, Repr

/-- Zero-pad to two digits, as `strftime` `%m` does. -/
def pad2 (n : Nat) : String :=
  if n < 10 then "0" ++ toString n else toString n

/-- Zero-pad to four digits, as `strftime` `%Y` does. -/
def pad4 (n : Nat) : String :=
  if n < 10 then "000" ++ toString n
  else if n < 100 then "00" ++ toString n
  else if n < 1000 then "0" ++ toString n
  else toString n

/-- Python `order.placedAt.strftime("%Y-%m")`. -/
def strftimeYM (d : DateTime) : String :=
  pad4 d.year ++ "-" ++ pad2 d.month

/-- One order line item as `analyzeSalesTrends` reads it: the included
inventory item name (`item.item.name`) and the quantity (`item.quantity`). -/
structure OrderItemRow where
  itemName : String
  quantity : Int
deriving DecidableEq, Repr

/-- One order row as returned by the store read in `analyzeSalesTrends`:
placement timestamp, the id of the included customer (`order.customer.id`),
and the included line items. -/
structure Order where
  placedAt : DateTime
  customerId : Nat
  items : List OrderItemRow
deriving DecidableEq, Repr

/- ### Association-list model of Python dicts -/

/-- Python `d[k]` as an option: the value stored at key `k`, if present. -/
def lookupKey [DecidableEq α] (k : α) : List (α × β) → Option β
  | [] => none
  | (k1, v) :: rest => if k = k1 then some v else lookupKey k rest

/-- Python `d[k] = f(d[k])`: update the value at `k` in place, keeping the
position of the key; no effect when `k` is absent. -/
def updateVal [DecidableEq α] (d : List (α × β)) (k : α) (f : β → β) : List (α × β) :=
  match d with
  | [] => []
  | (k1, v) :: rest =>
      if k = k1 then (k1, f v) :: rest else (k1, v) :: updateVal rest k f

/-- The key sequence of the dict, in insertion order. -/
def keysOf (d : List (α × β)) : List α := d.map Prod.fst

/-- Python `if k not in d: d[k] = 0` followed by `d[k] += v`: a fresh key is
appended at the end, an existing key keeps its position. -/
def addCount [DecidableEq α] (d : List (α × Int)) (k : α) (v : Int) : List (α × Int) :=
  let d1 := if (lookupKey k d).isSome then d else d ++ [(k, 0)]
  updateVal d1 k (fun x => x + v)

/-- Python `s.add(x)` on a set modelled as a duplicate-free list; in
`analyzeSalesTrends` the set only ever receives one distinct element, so the
iteration order of `list(s)` is determined. -/
def setAdd [DecidableEq α] (s : List α) (x : α) : List α :=
  if x ∈ s then s else s ++ [x]

/-- Python `collections.Counter(l)`: occurrence counts keyed in
first-encounter order. -/
def counterOf [DecidableEq α] (l : List α) : List (α × Int) :=
  l.foldl (fun d x => addCount d x 1) []

/- ### The aggregation loop of analyzeSalesTrends -/

/-- The running value of `customers_trend[customer_id]`: an order count and
the set of segment labels added so far. -/
structure CustTrend where
  count : Nat
  segments : List (Option String)
deriving DecidableEq, Repr

/-- One loop iteration on `customers_trend`: insert the default entry when
the key is new, then `count += 1` and `segments.add(customer_segment)`. -/
def addCustomerOrder (d : List (Nat × CustTrend)) (c : Nat) (seg : Option String) :
    List (Nat × CustTrend) :=
  let d1 := if (lookupKey c d).isSome then d else d ++ [(c, ⟨0, []⟩)]
  updateVal d1 c (fun t => { t with count := t.count + 1, segments := setAdd t.segments seg })

/-- The three accumulators of the `for order in orders` loop. -/
structure AggState where
  peak_periods : List String
  top_products_count : List (String × Int)
  customers_trend : List (Nat × CustTrend)
deriving Repr

/-- The body of the `for order in orders` loop: append the month label, tally
every line item quantity under its product name, and update the customer
trend entry. -/
def processOrder (seg : Option String) (st : AggState) (o : Order) : AggState :=
  { peak_periods := st.peak_periods ++ [strftimeYM o.placedAt]
    top_products_count :=
      o.items.foldl (fun d it => addCount d it.itemName it.quantity) st.top_products_count
    customers_trend := addCustomerOrder st.customers_trend o.customerId seg }

/-- The whole loop, starting from empty accumulators. -/
def aggLoop (seg : Option String) (orders : List Order) : AggState :=
  orders.foldl (processOrder seg) ⟨[], [], []⟩

/-- Python `max(d.values())`: raises `ValueError` on an empty dict, otherwise
returns the maximum value. -/
def maxOfValues (d : List (α × Int)) : Except PyError Int :=
  match d.map Prod.snd with
  | [] => Except.error (PyError.valueError "max arg is an empty sequence")
  | v :: vs => Except.ok (vs.foldl max v)

/-- The comprehension `[period for period, count in d.items() if count ==
max(d.values())]`: the guard, and with it the fallible `max`, is evaluated
once per element, so an empty dict yields an empty list without raising. -/
def topPeakPeriodsE (d : List (String × Int)) : Except PyError (List String) :=
  d.foldlM
    (fun acc kv => do
      let m ← maxOfValues d
      pure (if kv.2 = m then acc ++ [kv.1] else acc))
    []

/-- Stable insertion of a pair into a list ordered by descending second
component: the new element goes before the first element whose count is not
larger, so elements with equal counts keep their original relative order. -/
def insertDesc (x : α × Int) : List (α × Int) → List (α × Int)
  | [] => [x]
  | y :: ys => if y.2 ≤ x.2 then x :: y :: ys else y :: insertDesc x ys

/-- Python `sorted(l, key=lambda kv: kv[1], reverse=True)`: a stable sort by
descending second component, embedded as stable insertion sort. -/
def sortDesc (l : List (α × Int)) : List (α × Int) :=
  l.foldr insertDesc []

/-- The dict value at key `k` in the formatted per-customer output. -/
structure CustTrendOut where
  order_count : Nat
  segments : List (Option String)
deriving DecidableEq, Repr

/-- The `SalesTrendsResponse` pydantic model. The `customer_trends` dict is
an association list keyed by customer id. -/
structure SalesTrendsResponse where
  peak_periods : List String
  top_products : List String
  customer_trends : List (Nat × CustTrendOut)
deriving DecidableEq, Repr

/-- Lines 67-101 of `analyzeSalesTrends_service.py`: the aggregation that
runs after the permission check and the store read. `orders` is the row set
the store returned for the date/product/segment filters; `seg` is the
caller-supplied `customer_segment` argument. -/
def aggregateSalesTrends (seg : Option String) (orders : List Order) :
    Except PyError SalesTrendsResponse := do
  let st := aggLoop seg orders
  let peak_periods_count := counterOf st.peak_periods
  let top_peak_periods ← topPeakPeriodsE peak_periods_count
  let sorted_top_products := (sortDesc st.top_products_count).take 5
  let top_products := sorted_top_products.map Prod.fst
  let formatted_customer_trends :=
    st.customers_trend.map (fun kv => (kv.1, CustTrendOut.mk kv.2.count kv.2.segments))
  pure (SalesTrendsResponse.mk top_peak_periods top_products formatted_customer_trends)

/-- The full handler `analyzeSalesTrends`, lines 53-101. The guard is
`current_user is None or current_user.role not in [Role.SalesManager,
Role.AnalyticsManager]`: Python short-circuits, so an absent user raises
`PermissionError` without evaluating the list, while for every present user
the list is evaluated first and the access `prisma.enums.Role.
AnalyticsManager` raises `AttributeError` carrying the missing member name
(the generated enum lacks it, per the annotation at lines 56-57). The
membership test, the store read and the aggregation are therefore
unreachable for every user; `seg` and `orders` (the would-be store-read
result) are carried only to keep the call shape of the route. -/
def analyzeSalesTrends (current_user : Option User) (seg : Option String)
    (orders : List Order) : Except PyError SalesTrendsResponse :=
  match current_user, seg, orders with
  | none, _, _ =>
      Except.error (PyError.permissionError "Access denied: user is not authorized or not active.")
  | some _, _, _ =>
      Except.error (PyError.attributeError "AnalyticsManager")

/- ### The GET /sales/trends route wrapper (server.py) -/

/-- An HTTP outcome of the route: the typed response body on success, or a
`Response` whose JSON body is the dict with one key `error` holding the
exception message, with the given status code. -/
inductive RouteResult where
  | body (r : SalesTrendsResponse)
  | errorResponse (status : Nat) (errorField : String)
deriving DecidableEq, Repr

/-- The `api_get_analyzeSalesTrends` route in `server.py`: call the handler
inside `try`, return its result unchanged, and on any exception return a 500
response whose body carries `str(e)` under the key `error`. -/
def api_get_analyzeSalesTrends (current_user : Option User) (seg : Option String)
    (orders : List Order) : RouteResult :=
  match analyzeSalesTrends current_user seg orders with
  | Except.ok r => RouteResult.body r
  | Except.error e => RouteResult.errorResponse 500 e.message

/- ### addSalesRecord (addSalesRecord_service.py) -/

/-- The fields of `prisma.models.InventoryItem` that the embedded handlers
read and write. -/
structure InventoryItem where
  id : Nat
  quantity : Int
deriving DecidableEq, Repr

/-- The data written by an `InventoryLog.create` call. -/
structure InventoryLogEntry where
  itemId : Nat
  changedBy : Nat
  changeType : String
  amount : Int
deriving DecidableEq, Repr

/-- The tables that `addSalesRecord` touches. The id of a created log row is
modelled as its one-based position in `logs`. -/
structure SalesStore where
  inventory : List InventoryItem
  logs : List InventoryLogEntry
deriving DecidableEq, Repr

/-- The `SalesRecordResponse` pydantic model. -/
structure SalesRecordResponse where
  sale_id : Nat
  inventory_update_status : String
  financial_record_status : String
deriving DecidableEq, Repr

/-- Lines 50-74 of `addSalesRecord_service.py`: look up the inventory item,
reject a missing item or insufficient stock with `ValueError`, then issue the
update. The update call at lines 57-60 passes `data={"quantity":
prisma.models.InventoryItem.quantity - quantity}` — a class-level access to a
pydantic model field, which pydantic strips from the class namespace, so
evaluating the argument raises `AttributeError` before the `update` call is
entered. Neither the quantity decrement nor the `InventoryLog` create ever
executes, and the store is unchanged on every path. The unused `sale_price`
argument is omitted; `current_user` is carried for the call shape (its only
use, `current_user.id` in the log create, is unreachable). -/
def addSalesRecord (current_user : User) (product_id : Nat)
    (quantity : Int) (st : SalesStore) : Except PyError SalesRecordResponse × SalesStore :=
  match st.inventory.find? (fun it => it.id == product_id) with
  | none => (Except.error (PyError.valueError "Inventory item not found"), st)
  | some inventory_item =>
      if inventory_item.quantity < quantity then
        (Except.error (PyError.valueError "Insufficient stock available"), st)
      else
        (Except.error
          (PyError.attributeError "type object InventoryItem has no attribute quantity"), st)

/- ### deleteOrder (deleteOrder_service.py) -/

/-- One `prisma.models.OrderItem` row: its id, the id of the inventory item
it references, and the quantity. -/
structure OrderItemRec where
  id : Nat
  itemId : Nat
  quantity : Int
deriving DecidableEq, Repr

/-- One `prisma.models.Order` row as `deleteOrder` reads it (with its items
included). -/
structure OrderRec where
  id : Nat
  items : List OrderItemRec
deriving DecidableEq, Repr

/-- The tables that `deleteOrder` touches. -/
structure OrderStore where
  orders : List OrderRec
  inventory : List InventoryItem
deriving DecidableEq, Repr

/-- The `DeleteOrderResponse` pydantic model. -/
structure DeleteOrderResponse where
  success : Bool
  message : String
deriving DecidableEq, Repr

/-- Lines 32-54 of `deleteOrder_service.py`: deny disallowed roles, report a
missing order, and otherwise build the inventory-increment coroutines and
evaluate `asyncio.gather(*updates)`. The module never imports `asyncio`, so
evaluating the name raises `NameError` before any of the coroutines is
awaited and before the `Order.delete` call: the store is left unchanged. -/
def deleteOrder (current_user : User) (orderId : Nat) (st : OrderStore) :
    Except PyError DeleteOrderResponse × OrderStore :=
  if current_user.role = Role.Admin ∨ current_user.role = Role.OrderFulfillmentOfficer then
    match st.orders.find? (fun o => o.id == orderId) with
    | none => (Except.ok { success := false, message := "Order not found." }, st)
    | some _ =>
        (Except.error (PyError.nameError "name asyncio is not defined"), st)
  else
    (Except.ok { success := false, message := "Permission denied." }, st)

/- ### deleteSalesRecord (deleteSalesRecord_service.py) -/

/-- The tables that `deleteSalesRecord` touches. -/
structure SalesDelStore where
  orderItems : List OrderItemRec
  inventory : List InventoryItem
  logs : List InventoryLogEntry
deriving DecidableEq, Repr

/-- The `DeleteSalesResponse` pydantic model. -/
structure DeleteSalesResponse where
  success : Bool
  message : String
deriving DecidableEq, Repr

/-- Lines 32-62 of `deleteSalesRecord_service.py`: deny disallowed roles,
report a missing order item, otherwise increment the inventory quantity and
create an `InventoryLog` row when the inventory item exists, then delete the
order item and report success. The store writes of the success path are
modelled as succeeding; the claims under verification concern the two error
branches, which issue no writes. -/
def deleteSalesRecord (current_user : User) (id : Nat) (st : SalesDelStore) :
    DeleteSalesResponse × SalesDelStore :=
  if current_user.role = Role.SalesManager ∨ current_user.role = Role.Admin then
    match st.orderItems.find? (fun oi => oi.id == id) with
    | none => ({ success := false, message := "Sales record not found." }, st)
    | some order_item =>
        let st1 : SalesDelStore :=
          match st.inventory.find? (fun it => it.id == order_item.itemId) with
          | some _ =>
              { st with
                inventory := st.inventory.map
                  (fun it =>
                    if it.id == order_item.itemId then
                      { it with quantity := it.quantity + order_item.quantity }
                    else it)
                logs := st.logs ++
                  [{ itemId := order_item.itemId, changedBy := current_user.id
                     changeType := "Adjusted", amount := order_item.quantity }] }
          | none => st
        ({ success := true
           message := "Sales record deleted successfully and inventory restored." },
         { st1 with orderItems := st1.orderItems.filter (fun oi => !(oi.id == id)) })
  else
    ({ success := false, message := "Insufficient permission to delete sales records." }, st)

/- ### Specification-level descriptions of the aggregation -/

/-- The year-month labels of the orders, one per order, in order. -/
def monthLabels (orders : List Order) : List String :=
  orders.map (fun o => strftimeYM o.placedAt)

/-- The number of orders whose placement falls in period `p`. -/
def numOrdersInPeriod (orders : List Order) (p : String) : Nat :=
  ((monthLabels orders).filter (fun q => decide (q = p))).length

/-- Period `p` is a peak period: it occurs, and no period has more orders. -/
def isPeakPeriod (orders : List Order) (p : String) : Prop :=
  p ∈ monthLabels orders ∧
    ∀ q ∈ monthLabels orders, numOrdersInPeriod orders q ≤ numOrdersInPeriod orders p

/-- All line items of the orders, in traversal order. -/
def allItems (orders : List Order) : List OrderItemRow :=
  (orders.map Order.items).flatten

/-- The product names in line-item traversal order, with repetitions. -/
def itemNames (orders : List Order) : List String :=
  (allItems orders).map OrderItemRow.itemName

/-- The total quantity of product `p` summed over all line items. -/
def totalQty (orders : List Order) (p : String) : Int :=
  (((allItems orders).filter (fun it => decide (it.itemName = p))).map
    OrderItemRow.quantity).sum

/-- The number of orders placed by customer `cid`. -/
def numOrdersOfCustomer (orders : List Order) (cid : Nat) : Nat :=
  ((orders.map Order.customerId).filter (fun c => decide (c = cid))).length

/- ### Lemmas about the association-list dict model -/

theorem lookupKey_append [DecidableEq α] (k : α) (d e : List (α × β)) :
    lookupKey k (d ++ e) =
      match lookupKey k d with
      | some v => some v
      | none => lookupKey k e := by
  induction d with
  | nil => simp [lookupKey]
  | cons kv rest ih =>
      obtain ⟨k1, v⟩ := kv
      by_cases h : k = k1 <;> simp [lookupKey, h, ih]

theorem lookupKey_updateVal_self [DecidableEq α] (d : List (α × β)) (k : α) (f : β → β) :
    lookupKey k (updateVal d k f) = (lookupKey k d).map f := by
  induction d with
  | nil => simp [lookupKey, updateVal]
  | cons kv rest ih =>
      obtain ⟨k1, v⟩ := kv
      by_cases h : k = k1 <;> simp [lookupKey, updateVal, h, ih]

theorem lookupKey_updateVal_ne [DecidableEq α] (d : List (α × β)) {x k : α} (f : β → β)
    (h : x ≠ k) : lookupKey x (updateVal d k f) = lookupKey x d := by
  induction d with
  | nil => simp [updateVal]
  | cons kv rest ih =>
      obtain ⟨k1, v⟩ := kv
      by_cases h1 : k = k1
      · subst h1
        simp [lookupKey, updateVal, h, ih]
      · by_cases h2 : x = k1 <;> simp [lookupKey, updateVal, h1, h2, ih]

theorem keysOf_updateVal [DecidableEq α] (d : List (α × β)) (k : α) (f : β → β) :
    keysOf (updateVal d k f) = keysOf d := by
  induction d with
  | nil => rfl
  | cons kv rest ih =>
      obtain ⟨k1, v⟩ := kv
      by_cases h : k = k1
      · simp [keysOf, updateVal, h]
      · simp only [keysOf, updateVal, if_neg h, List.map_cons]
        simpa [keysOf] using ih

theorem lookupKey_isSome_iff [DecidableEq α] (k : α) (d : List (α × β)) :
    (lookupKey k d).isSome = true ↔ k ∈ keysOf d := by
  induction d with
  | nil => simp [lookupKey, keysOf]
  | cons kv rest ih =>
      obtain ⟨k1, v⟩ := kv
      by_cases h : k = k1 <;> simp [lookupKey, keysOf, h, ih]

theorem lookupKey_eq_none_iff [DecidableEq α] (k : α) (d : List (α × β)) :
    lookupKey k d = none ↔ k ∉ keysOf d := by
  rw [← lookupKey_isSome_iff]
  cases lookupKey k d <;> simp

theorem lookupKey_eq_some_of_mem [DecidableEq α] {k : α} {v : β} {d : List (α × β)}
    (hd : (keysOf d).Nodup) (hm : (k, v) ∈ d) : lookupKey k d = some v := by
  induction d with
  | nil => cases hm
  | cons kv rest ih =>
      obtain ⟨k1, v1⟩ := kv
      simp only [keysOf, List.map_cons, List.nodup_cons] at hd
      rcases List.mem_cons.mp hm with h | h
      · cases h
        simp [lookupKey]
      · have hk : k ≠ k1 := by
          rintro rfl
          exact hd.1 (by simpa [keysOf] using List.mem_map_of_mem Prod.fst h)
        simp [lookupKey, hk, ih hd.2 h]

theorem mem_of_lookupKey_eq_some [DecidableEq α] {k : α} {v : β} {d : List (α × β)}
    (h : lookupKey k d = some v) : (k, v) ∈ d := by
  induction d with
  | nil => simp [lookupKey] at h
  | cons kv rest ih =>
      obtain ⟨k1, v1⟩ := kv
      by_cases hk : k = k1
      · subst hk
        simp [lookupKey] at h
        simp [h]
      · simp [lookupKey, hk] at h
        exact List.mem_cons_of_mem _ (ih h)

/-- The value stored at `k`, defaulting to 0; the running total of the tally. -/
def valAt [DecidableEq α] (k : α) (d : List (α × Int)) : Int :=
  (lookupKey k d).getD 0

theorem lookupKey_addCount_self [DecidableEq α] (d : List (α × Int)) (k : α) (v : Int) :
    lookupKey k (addCount d k v) = some ((lookupKey k d).getD 0 + v) := by
  unfold addCount
  cases h : lookupKey k d with
  | some w => simp [h, lookupKey_updateVal_self, Option.map]
  | none =>
      have hmem : k ∉ keysOf d := (lookupKey_eq_none_iff k d).mp h
      simp only [h, Option.isSome_none, Bool.false_eq_true, if_false]
      rw [lookupKey_updateVal_self, lookupKey_append]
      simp [h, lookupKey]

theorem lookupKey_addCount_other [DecidableEq α] (d : List (α × Int)) {x k : α} (v : Int)
    (h : x ≠ k) : lookupKey x (addCount d k v) = lookupKey x d := by
  unfold addCount
  cases hs : (lookupKey k d).isSome with
  | true => simp [hs, lookupKey_updateVal_ne _ _ h]
  | false =>
      simp only [hs, Bool.false_eq_true, if_false]
      rw [lookupKey_updateVal_ne _ _ h, lookupKey_append]
      cases hx : lookupKey x d with
      | some w => simp
      | none => simp [lookupKey, h]

theorem valAt_addCount_self [DecidableEq α] (d : List (α × Int)) (k : α) (v : Int) :
    valAt k (addCount d k v) = valAt k d + v := by
  simp [valAt, lookupKey_addCount_self]

theorem valAt_addCount_other [DecidableEq α] (d : List (α × Int)) {x k : α} (v : Int)
    (h : x ≠ k) : valAt x (addCount d k v) = valAt x d := by
  simp [valAt, lookupKey_addCount_other d v h]

theorem keysOf_addCount [DecidableEq α] (d : List (α × Int)) (k : α) (v : Int) :
    keysOf (addCount d k v) = if k ∈ keysOf d then keysOf d else keysOf d ++ [k] := by
  unfold addCount
  by_cases hmem : k ∈ keysOf d
  · have hs : (lookupKey k d).isSome = true := (lookupKey_isSome_iff k d).mpr hmem
    simp [hs, hmem, keysOf_updateVal]
  · have hs : (lookupKey k d).isSome = false := by
      cases hh : (lookupKey k d).isSome with
      | true => exact absurd ((lookupKey_isSome_iff k d).mp hh) hmem
      | false => rfl
    simp only [hs, Bool.false_eq_true, if_false]
    rw [keysOf_updateVal, if_neg hmem]
    simp [keysOf]

/- ### The generic tally fold -/

/-- The loop `for x in l: d[key x] += wt x` with defaulting insertion; both
`top_products_count` and `Counter` are instances of this shape. -/
def wfold [DecidableEq α] (key : β → α) (wt : β → Int) (d : List (α × Int)) (l : List β) :
    List (α × Int) :=
  l.foldl (fun d x => addCount d (key x) (wt x)) d

/-- The weighted sum of the elements of `l` whose key is `k`. -/
def wsum [DecidableEq α] (key : β → α) (wt : β → Int) (k : α) (l : List β) : Int :=
  ((l.filter (fun x => decide (key x = k))).map wt).sum

theorem wfold_append [DecidableEq α] (key : β → α) (wt : β → Int) (d : List (α × Int))
    (l1 l2 : List β) : wfold key wt d (l1 ++ l2) = wfold key wt (wfold key wt d l1) l2 := by
  simp [wfold, List.foldl_append]

theorem valAt_wfold [DecidableEq α] (key : β → α) (wt : β → Int) (k : α) :
    ∀ (l : List β) (d : List (α × Int)),
      valAt k (wfold key wt d l) = valAt k d + wsum key wt k l := by
  intro l
  induction l with
  | nil => intro d; simp [wfold, wsum]
  | cons x rest ih =>
      intro d
      have hstep : wfold key wt d (x :: rest) = wfold key wt (addCount d (key x) (wt x)) rest := rfl
      rw [hstep, ih]
      by_cases hk : key x = k
      · subst hk
        rw [valAt_addCount_self]
        simp [wsum, List.filter_cons]
        ring
      · rw [valAt_addCount_other d (wt x) (Ne.symm hk)]
        simp [wsum, List.filter_cons, hk]

/-- Key accumulation in first-encounter order. -/
def firstOcc [DecidableEq α] (acc : List α) (ks : List α) : List α :=
  ks.foldl (fun a k => if k ∈ a then a else a ++ [k]) acc

theorem keysOf_wfold [DecidableEq α] (key : β → α) (wt : β → Int) :
    ∀ (l : List β) (d : List (α × Int)),
      keysOf (wfold key wt d l) = firstOcc (keysOf d) (l.map key) := by
  intro l
  induction l with
  | nil => intro d; simp [wfold, firstOcc]
  | cons x rest ih =>
      intro d
      have hstep : wfold key wt d (x :: rest) = wfold key wt (addCount d (key x) (wt x)) rest := rfl
      rw [hstep, ih, keysOf_addCount]
      by_cases hmem : key x ∈ keysOf d <;> simp [firstOcc, hmem]

theorem mem_firstOcc [DecidableEq α] (k : α) :
    ∀ (ks acc : List α), k ∈ firstOcc acc ks ↔ k ∈ acc ∨ k ∈ ks := by
  intro ks
  induction ks with
  | nil => intro acc; simp [firstOcc]
  | cons x rest ih =>
      intro acc
      have hstep : firstOcc acc (x :: rest) = firstOcc (if x ∈ acc then acc else acc ++ [x]) rest := rfl
      rw [hstep, ih]
      by_cases hx : x ∈ acc
      · have hx2 : k = x → k ∈ acc := fun e => e ▸ hx
        simp only [if_pos hx, List.mem_cons]
        tauto
      · simp only [if_neg hx, List.mem_append, List.mem_singleton, List.mem_cons]
        tauto

theorem nodup_firstOcc [DecidableEq α] :
    ∀ (ks acc : List α), acc.Nodup → (firstOcc acc ks).Nodup := by
  intro ks
  induction ks with
  | nil => intro acc h; simpa [firstOcc] using h
  | cons x rest ih =>
      intro acc h
      have hstep : firstOcc acc (x :: rest) = firstOcc (if x ∈ acc then acc else acc ++ [x]) rest := rfl
      rw [hstep]
      by_cases hx : x ∈ acc
      · simpa [hx] using ih acc h
      · refine ih _ ?_
        rw [if_neg hx]
        refine List.Nodup.append h (List.nodup_singleton x) ?_
        intro a ha hmem2
        rw [List.mem_singleton] at hmem2
        exact hx (hmem2 ▸ ha)

theorem nodup_keysOf_wfold [DecidableEq α] (key : β → α) (wt : β → Int) (l : List β) :
    (keysOf (wfold key wt ([] : List (α × Int)) l)).Nodup := by
  rw [keysOf_wfold]
  exact nodup_firstOcc _ _ (by simp [keysOf])

/- ### Characterization of the aggregation loop accumulators -/

theorem aggFold_peak_periods (seg : Option String) :
    ∀ (orders : List Order) (st : AggState),
      (orders.foldl (processOrder seg) st).peak_periods = st.peak_periods ++ monthLabels orders := by
  intro orders
  induction orders with
  | nil => intro st; simp [monthLabels]
  | cons o rest ih =>
      intro st
      simp only [List.foldl_cons, ih, processOrder, monthLabels, List.map_cons]
      simp [monthLabels]

theorem aggLoop_peak_periods (seg : Option String) (orders : List Order) :
    (aggLoop seg orders).peak_periods = monthLabels orders := by
  simpa using aggFold_peak_periods seg orders ⟨[], [], []⟩

theorem aggFold_top_products_count (seg : Option String) :
    ∀ (orders : List Order) (st : AggState),
      (orders.foldl (processOrder seg) st).top_products_count =
        wfold OrderItemRow.itemName OrderItemRow.quantity st.top_products_count
          (allItems orders) := by
  intro orders
  induction orders with
  | nil => intro st; simp [allItems, wfold]
  | cons o rest ih =>
      intro st
      have hall : allItems (o :: rest) = o.items ++ allItems rest := by
        simp [allItems]
      simp only [List.foldl_cons, ih, processOrder, hall, wfold_append]
      rfl

theorem aggLoop_top_products_count (seg : Option String) (orders : List Order) :
    (aggLoop seg orders).top_products_count =
      wfold OrderItemRow.itemName OrderItemRow.quantity [] (allItems orders) := by
  simpa using aggFold_top_products_count seg orders ⟨[], [], []⟩

theorem aggFold_customers_trend (seg : Option String) :
    ∀ (orders : List Order) (st : AggState),
      (orders.foldl (processOrder seg) st).customers_trend =
        (orders.map Order.customerId).foldl (fun d c => addCustomerOrder d c seg)
          st.customers_trend := by
  intro orders
  induction orders with
  | nil => intro st; simp
  | cons o rest ih =>
      intro st
      simp only [List.foldl_cons, ih, processOrder, List.map_cons]

theorem aggLoop_customers_trend (seg : Option String) (orders : List Order) :
    (aggLoop seg orders).customers_trend =
      (orders.map Order.customerId).foldl (fun d c => addCustomerOrder d c seg) [] := by
  simpa using aggFold_customers_trend seg orders ⟨[], [], []⟩

/- ### Peak periods: the fallible comprehension and the maximum -/

theorem le_foldl_max : ∀ (l : List Int) (b : Int), b ≤ l.foldl max b := by
  intro l
  induction l with
  | nil => intro b; simp
  | cons w rest ih =>
      intro b
      exact le_trans (le_max_left b w) (ih (max b w))

theorem foldl_max_is_ub (x : Int) : ∀ (vs : List Int) (v : Int), x ∈ v :: vs → x ≤ vs.foldl max v := by
  intro vs
  induction vs with
  | nil =>
      intro v hx
      simp at hx
      simp [hx]
  | cons w rest ih =>
      intro v hx
      rcases List.mem_cons.mp hx with h | h
      · subst h
        exact le_trans (le_max_left x w) (le_foldl_max rest (max x w))
      · rcases List.mem_cons.mp h with h2 | h2
        · subst h2
          exact le_trans (le_max_right v x) (le_foldl_max rest (max v x))
        · exact ih (max v w) (List.mem_cons_of_mem _ h2)

theorem foldl_max_mem : ∀ (vs : List Int) (v : Int), vs.foldl max v ∈ v :: vs := by
  intro vs
  induction vs with
  | nil => intro v; simp
  | cons w rest ih =>
      intro v
      show rest.foldl max (max v w) ∈ v :: w :: rest
      rcases List.mem_cons.mp (ih (max v w)) with h | h
      · rw [h]
        rcases max_choice v w with hc | hc
        · rw [hc]; exact List.mem_cons_self _ _
        · rw [hc]; exact List.mem_cons_of_mem _ (List.mem_cons_self _ _)
      · exact List.mem_cons_of_mem _ (List.mem_cons_of_mem _ h)

/-- The value of the comprehension when it does run: all keys whose count is
the maximum value, in dict order. -/
def topPeakList (d : List (String × Int)) : List String :=
  match d.map Prod.snd with
  | [] => []
  | v :: vs => (d.filter (fun kv => decide (kv.2 = vs.foldl max v))).map Prod.fst

theorem topPeakPeriodsE_ok (d : List (String × Int)) :
    topPeakPeriodsE d = Except.ok (topPeakList d) := by
  cases d with
  | nil => rfl
  | cons kv rest =>
      have hmax : maxOfValues (kv :: rest) =
          Except.ok ((rest.map Prod.snd).foldl max kv.2) := by
        simp [maxOfValues]
      have hbody : ∀ (l : List (String × Int)) (acc : List String),
          l.foldlM
            (fun acc kv2 => do
              let mv ← maxOfValues (kv :: rest)
              pure (if kv2.2 = mv then acc ++ [kv2.1] else acc))
            acc
          = Except.ok (acc ++
              (l.filter (fun kv2 =>
                decide (kv2.2 = (rest.map Prod.snd).foldl max kv.2))).map Prod.fst) := by
        intro l
        induction l with
        | nil =>
            intro acc
            simp only [List.foldlM_nil, List.filter_nil, List.map_nil, List.append_nil]
            rfl
        | cons x xs ih =>
            intro acc
            rw [List.foldlM_cons, hmax]
            simp only [hmax] at ih
            by_cases hx : x.2 = (rest.map Prod.snd).foldl max kv.2
            · show xs.foldlM _ (if x.2 = (rest.map Prod.snd).foldl max kv.2 then acc ++ [x.1] else acc) = _
              rw [if_pos hx, ih (acc ++ [x.1])]
              simp [List.filter_cons, hx]
            · show xs.foldlM _ (if x.2 = (rest.map Prod.snd).foldl max kv.2 then acc ++ [x.1] else acc) = _
              rw [if_neg hx, ih acc]
              simp [List.filter_cons, hx]
      have hfin := hbody (kv :: rest) []
      rw [List.nil_append] at hfin
      exact hfin

/- ### Stable descending insertion sort: permutation, order, stability -/

theorem insertDesc_perm (x : α × Int) (l : List (α × Int)) :
    (insertDesc x l).Perm (x :: l) := by
  induction l with
  | nil => exact List.Perm.refl _
  | cons y ys ih =>
      by_cases h : y.2 ≤ x.2
      · simp only [insertDesc, if_pos h]
        exact List.Perm.refl _
      · simp only [insertDesc, if_neg h]
        exact (ih.cons y).trans (List.Perm.swap x y ys)

theorem sortDesc_perm (l : List (α × Int)) : (sortDesc l).Perm l := by
  induction l with
  | nil => exact List.Perm.refl _
  | cons x xs ih =>
      have hstep : sortDesc (x :: xs) = insertDesc x (sortDesc xs) := rfl
      rw [hstep]
      exact (insertDesc_perm x (sortDesc xs)).trans (ih.cons x)

theorem pairwise_insertDesc (x : α × Int) (l : List (α × Int))
    (h : l.Pairwise (fun a b => b.2 ≤ a.2)) :
    (insertDesc x l).Pairwise (fun a b => b.2 ≤ a.2) := by
  induction l with
  | nil => simp [insertDesc]
  | cons y ys ih =>
      rcases List.pairwise_cons.mp h with ⟨hy, hys⟩
      by_cases hc : y.2 ≤ x.2
      · simp only [insertDesc, if_pos hc]
        refine List.pairwise_cons.mpr ⟨?_, h⟩
        intro z hz
        rcases List.mem_cons.mp hz with rfl | hz2
        · exact hc
        · exact le_trans (hy z hz2) hc
      · simp only [insertDesc, if_neg hc]
        refine List.pairwise_cons.mpr ⟨?_, ih hys⟩
        intro z hz
        have hz2 : z ∈ x :: ys := (insertDesc_perm x ys).mem_iff.mp hz
        rcases List.mem_cons.mp hz2 with rfl | hz3
        · exact (not_le.mp hc).le
        · exact hy z hz3

theorem sortDesc_pairwise (l : List (α × Int)) :
    (sortDesc l).Pairwise (fun a b => b.2 ≤ a.2) := by
  induction l with
  | nil => simp [sortDesc]
  | cons x xs ih =>
      have hstep : sortDesc (x :: xs) = insertDesc x (sortDesc xs) := rfl
      rw [hstep]
      exact pairwise_insertDesc x (sortDesc xs) ih

theorem filter_insertDesc (c : Int) (x : α × Int) (l : List (α × Int)) :
    (insertDesc x l).filter (fun kv => decide (kv.2 = c)) =
      (x :: l).filter (fun kv => decide (kv.2 = c)) := by
  induction l with
  | nil => rfl
  | cons y ys ih =>
      by_cases hc : y.2 ≤ x.2
      · simp only [insertDesc, if_pos hc]
      · simp only [insertDesc, if_neg hc]
        by_cases hxc : x.2 = c
        · have hyc : ¬ y.2 = c := by
            intro h
            exact hc (by rw [h, hxc])
          simp [List.filter_cons, hxc, hyc, ih]
        · simp [List.filter_cons, hxc, ih]

theorem filter_sortDesc (c : Int) (l : List (α × Int)) :
    (sortDesc l).filter (fun kv => decide (kv.2 = c)) =
      l.filter (fun kv => decide (kv.2 = c)) := by
  induction l with
  | nil => rfl
  | cons x xs ih =>
      have hstep : sortDesc (x :: xs) = insertDesc x (sortDesc xs) := rfl
      rw [hstep, filter_insertDesc]
      simp [List.filter_cons, ih]

/- ### The Counter of the month labels -/

theorem counterOf_eq_wfold [DecidableEq α] (l : List α) :
    counterOf l = wfold id (fun _ => (1 : Int)) [] l := rfl

theorem sum_map_one (l : List γ) : (l.map (fun _ => (1 : Int))).sum = l.length := by
  induction l with
  | nil => simp
  | cons x xs ih => simp [ih, add_comm]

theorem valAt_counterOf [DecidableEq α] (p : α) (l : List α) :
    valAt p (counterOf l) = ((l.filter (fun q => decide (q = p))).length : Int) := by
  rw [counterOf_eq_wfold, valAt_wfold]
  simp [valAt, lookupKey, wsum, sum_map_one]

theorem mem_keysOf_counterOf [DecidableEq α] (p : α) (l : List α) :
    p ∈ keysOf (counterOf l) ↔ p ∈ l := by
  rw [counterOf_eq_wfold, keysOf_wfold, mem_firstOcc]
  simp [keysOf]

theorem counter_pair_spec (orders : List Order) {q : String} {c : Int}
    (h : (q, c) ∈ counterOf (monthLabels orders)) :
    q ∈ monthLabels orders ∧ c = (numOrdersInPeriod orders q : Int) := by
  have hnodup : (keysOf (counterOf (monthLabels orders))).Nodup := by
    rw [counterOf_eq_wfold]
    exact nodup_keysOf_wfold _ _ _
  have hlk := lookupKey_eq_some_of_mem hnodup h
  have hq : q ∈ keysOf (counterOf (monthLabels orders)) :=
    (lookupKey_isSome_iff q _).mp (by simp [hlk])
  refine ⟨(mem_keysOf_counterOf q _).mp hq, ?_⟩
  have hval := valAt_counterOf q (monthLabels orders)
  rw [valAt, hlk] at hval
  simpa [numOrdersInPeriod] using hval

theorem counter_pair_exists (orders : List Order) {q : String}
    (h : q ∈ monthLabels orders) :
    (q, (numOrdersInPeriod orders q : Int)) ∈ counterOf (monthLabels orders) := by
  have hq : q ∈ keysOf (counterOf (monthLabels orders)) :=
    (mem_keysOf_counterOf q _).mpr h
  obtain ⟨c, hc⟩ := Option.isSome_iff_exists.mp ((lookupKey_isSome_iff q _).mpr hq)
  have hmem := mem_of_lookupKey_eq_some hc
  have hval := (counter_pair_spec orders hmem).2
  exact hval ▸ hmem

/- ### End-to-end evaluation of the aggregation -/

theorem aggregateSalesTrends_ok (seg : Option String) (orders : List Order) :
    aggregateSalesTrends seg orders = Except.ok
      { peak_periods := topPeakList (counterOf (monthLabels orders))
        top_products :=
          ((sortDesc (wfold OrderItemRow.itemName OrderItemRow.quantity []
            (allItems orders))).take 5).map Prod.fst
        customer_trends :=
          (aggLoop seg orders).customers_trend.map
            (fun kv => (kv.1, CustTrendOut.mk kv.2.count kv.2.segments)) } := by
  simp only [aggregateSalesTrends]
  rw [aggLoop_peak_periods, aggLoop_top_products_count, topPeakPeriodsE_ok]
  rfl

/-- Peak-period analysis: for a non-empty order set the comprehension output
is non-empty and holds exactly the period labels of maximum order count. -/
theorem topPeakList_spec (orders : List Order) (h : orders ≠ []) :
    topPeakList (counterOf (monthLabels orders)) ≠ [] ∧
      ∀ p, p ∈ topPeakList (counterOf (monthLabels orders)) ↔ isPeakPeriod orders p := by
  cases hc : counterOf (monthLabels orders) with
  | nil =>
      exfalso
      obtain ⟨o, ho⟩ := List.exists_mem_of_ne_nil orders h
      have hm : strftimeYM o.placedAt ∈ monthLabels orders :=
        List.mem_map_of_mem _ ho
      have hk := (mem_keysOf_counterOf _ _).mpr hm
      rw [hc] at hk
      simp [keysOf] at hk
  | cons kv rest =>
      have hpair : ∀ {q : String} {c : Int}, (q, c) ∈ kv :: rest →
          q ∈ monthLabels orders ∧ c = (numOrdersInPeriod orders q : Int) := by
        intro q c hqc
        exact counter_pair_spec orders (by rw [hc]; exact hqc)
      have hexists : ∀ {q : String}, q ∈ monthLabels orders →
          (q, (numOrdersInPeriod orders q : Int)) ∈ kv :: rest := by
        intro q hq
        have hmem := counter_pair_exists orders hq
        rwa [hc] at hmem
      set M := (rest.map Prod.snd).foldl max kv.2 with hM
      have hub : ∀ {q : String} {c : Int}, (q, c) ∈ kv :: rest → c ≤ M := by
        intro q c hqc
        refine foldl_max_is_ub c (rest.map Prod.snd) kv.2 ?_
        have hcm : c ∈ (kv :: rest).map Prod.snd := List.mem_map_of_mem Prod.snd hqc
        simpa using hcm
      have hMmem : ∃ q, (q, M) ∈ kv :: rest := by
        have hmm : M ∈ (kv :: rest).map Prod.snd := by
          have hfm := foldl_max_mem (rest.map Prod.snd) kv.2
          simpa using hfm
        obtain ⟨kv2, hkv2, hsnd⟩ := List.mem_map.mp hmm
        refine ⟨kv2.1, ?_⟩
        rw [← hsnd]
        exact hkv2
      have hmemT : ∀ p, p ∈ topPeakList (kv :: rest) ↔
          ∃ c, (p, c) ∈ kv :: rest ∧ c = M := by
        intro p
        show p ∈ ((kv :: rest).filter (fun kv2 => decide (kv2.2 = M))).map Prod.fst ↔ _
        constructor
        · intro hp
          obtain ⟨kv2, hkv2, hfst⟩ := List.mem_map.mp hp
          rw [List.mem_filter] at hkv2
          refine ⟨kv2.2, ?_, by simpa using hkv2.2⟩
          rw [← hfst]
          exact hkv2.1
        · rintro ⟨c, hmem2, hcM⟩
          subst hcM
          exact List.mem_map.mpr ⟨(p, M), List.mem_filter.mpr ⟨hmem2, by simp⟩, rfl⟩
      constructor
      · obtain ⟨q0, hq0⟩ := hMmem
        have hq0T : q0 ∈ topPeakList (kv :: rest) :=
          (hmemT q0).mpr ⟨M, hq0, rfl⟩
        exact List.ne_nil_of_mem hq0T
      · intro p
        rw [hmemT p]
        constructor
        · rintro ⟨c, hpc, hcM⟩
          obtain ⟨hpmem, hpval⟩ := hpair hpc
          refine ⟨hpmem, ?_⟩
          intro q hq
          have hqub := hub (hexists hq)
          rw [hcM] at hpval
          rw [hpval] at hqub
          exact_mod_cast hqub
        · rintro ⟨hpmem, hmax2⟩
          refine ⟨(numOrdersInPeriod orders p : Int), hexists hpmem, ?_⟩
          obtain ⟨q0, hq0⟩ := hMmem
          obtain ⟨hq0mem, hq0val⟩ := hpair hq0
          have hle1 : ((numOrdersInPeriod orders p : Int)) ≤ M := hub (hexists hpmem)
          have hle2 : M ≤ (numOrdersInPeriod orders p : Int) := by
            rw [hq0val]
            exact_mod_cast hmax2 q0 hq0mem
          exact le_antisymm hle1 hle2

/-- C1: for every non-empty collection of orders, the returned peak_periods
list is non-empty and holds exactly the year-month labels whose order count
equals the maximum order count over all periods, ties included. -/
theorem C1_peak_periods_exact (seg : Option String) (orders : List Order)
    (h : orders ≠ []) :
    ∃ resp, aggregateSalesTrends seg orders = Except.ok resp ∧
      resp.peak_periods ≠ [] ∧
      ∀ p, p ∈ resp.peak_periods ↔ isPeakPeriod orders p := by
  refine ⟨_, aggregateSalesTrends_ok seg orders, ?_, ?_⟩
  · exact (topPeakList_spec orders h).1
  · exact (topPeakList_spec orders h).2

/-- Witness for C1 at a concrete two-order input: both orders fall in
2024-01, which is the unique peak period. -/
theorem C1_witness :
    (([⟨⟨2024, 1⟩, 7, []⟩, ⟨⟨2024, 1⟩, 8, []⟩] : List Order) ≠ []) ∧
      (∃ resp,
        aggregateSalesTrends none [⟨⟨2024, 1⟩, 7, []⟩, ⟨⟨2024, 1⟩, 8, []⟩] = Except.ok resp ∧
        resp.peak_periods ≠ [] ∧
        ∀ p, p ∈ resp.peak_periods ↔
          isPeakPeriod [⟨⟨2024, 1⟩, 7, []⟩, ⟨⟨2024, 1⟩, 8, []⟩] p) :=
  ⟨by simp, C1_peak_periods_exact none _ (by simp)⟩

/- ### Top products -/

theorem products_pair_spec (orders : List Order) {q : String} {c : Int}
    (h : (q, c) ∈ wfold OrderItemRow.itemName OrderItemRow.quantity [] (allItems orders)) :
    q ∈ itemNames orders ∧ c = totalQty orders q := by
  have hnodup :=
    nodup_keysOf_wfold OrderItemRow.itemName OrderItemRow.quantity (allItems orders)
  have hlk := lookupKey_eq_some_of_mem hnodup h
  have hq : q ∈ keysOf (wfold OrderItemRow.itemName OrderItemRow.quantity [] (allItems orders)) :=
    (lookupKey_isSome_iff q _).mp (by simp [hlk])
  constructor
  · rw [keysOf_wfold, mem_firstOcc] at hq
    simpa [keysOf, itemNames] using hq
  · have hval :=
      valAt_wfold OrderItemRow.itemName OrderItemRow.quantity q (allItems orders) []
    rw [valAt, hlk] at hval
    simpa [valAt, lookupKey, wsum, totalQty] using hval

theorem products_pair_exists (orders : List Order) {q : String}
    (h : q ∈ itemNames orders) :
    (q, totalQty orders q) ∈
      wfold OrderItemRow.itemName OrderItemRow.quantity [] (allItems orders) := by
  have hq : q ∈ keysOf (wfold OrderItemRow.itemName OrderItemRow.quantity [] (allItems orders)) := by
    rw [keysOf_wfold, mem_firstOcc]
    right
    simpa [itemNames] using h
  obtain ⟨c, hc⟩ := Option.isSome_iff_exists.mp ((lookupKey_isSome_iff q _).mpr hq)
  have hmem := mem_of_lookupKey_eq_some hc
  have hval := (products_pair_spec orders hmem).2
  exact hval ▸ hmem

/-- C2: the returned top_products list has length at most 5, consists of the
products of highest total summed quantity, is ordered by descending summed
quantity, and for every quantity value the equal-quantity products listed are
an initial segment of the encountered products of that quantity in
first-encounter order (stable sort on insertion order). -/
theorem C2_top_products (seg : Option String) (orders : List Order) :
    ∃ resp, aggregateSalesTrends seg orders = Except.ok resp ∧
      resp.top_products.length ≤ 5 ∧
      List.Pairwise (fun p q => totalQty orders q ≤ totalQty orders p) resp.top_products ∧
      (∀ p ∈ resp.top_products, p ∈ itemNames orders) ∧
      (∀ q ∈ itemNames orders, q ∉ resp.top_products →
        resp.top_products.length = 5 ∧
        ∀ p ∈ resp.top_products, totalQty orders q ≤ totalQty orders p) ∧
      (∀ c : Int, ∃ t,
        resp.top_products.filter (fun p => decide (totalQty orders p = c)) ++ t =
          (firstOcc [] (itemNames orders)).filter
            (fun p => decide (totalQty orders p = c))) := by
  refine ⟨_, aggregateSalesTrends_ok seg orders, ?_, ?_, ?_, ?_, ?_⟩
  all_goals
    set W := wfold OrderItemRow.itemName OrderItemRow.quantity [] (allItems orders) with hW
    set L := sortDesc W with hL
    set T := L.take 5 with hT
  case _ =>
    show (T.map Prod.fst).length ≤ 5
    rw [List.length_map, hT, List.length_take]
    exact min_le_left _ _
  case _ =>
    show List.Pairwise _ (T.map Prod.fst)
    refine List.pairwise_map.mpr ?_
    have hpwT : T.Pairwise (fun a b => b.2 ≤ a.2) :=
      (sortDesc_pairwise W).sublist (List.take_sublist 5 L)
    refine hpwT.imp_of_mem ?_
    intro a b ha hb hr
    have hva := (products_pair_spec orders ((sortDesc_perm W).mem_iff.mp
      (List.take_subset 5 L ha))).2
    have hvb := (products_pair_spec orders ((sortDesc_perm W).mem_iff.mp
      (List.take_subset 5 L hb))).2
    rw [← hva, ← hvb]
    exact hr
  case _ =>
    show ∀ p ∈ T.map Prod.fst, p ∈ itemNames orders
    intro p hp
    obtain ⟨kv, hkvT, hfst⟩ := List.mem_map.mp hp
    have hkvW : kv ∈ W := (sortDesc_perm W).mem_iff.mp (List.take_subset 5 L hkvT)
    rw [← hfst]
    exact (products_pair_spec orders hkvW).1
  case _ =>
    show ∀ q ∈ itemNames orders, q ∉ T.map Prod.fst →
        (T.map Prod.fst).length = 5 ∧
        ∀ p ∈ T.map Prod.fst, totalQty orders q ≤ totalQty orders p
    intro q hq hnot
    have hqW : (q, totalQty orders q) ∈ W := products_pair_exists orders hq
    have hqL : (q, totalQty orders q) ∈ L := (sortDesc_perm W).mem_iff.mpr hqW
    have happ : T ++ L.drop 5 = L := List.take_append_drop 5 L
    have hqTD : (q, totalQty orders q) ∈ T ++ L.drop 5 := by rw [happ]; exact hqL
    rcases List.mem_append.mp hqTD with hqT | hqD
    · exact absurd (List.mem_map_of_mem Prod.fst hqT) hnot
    · have hDne : L.drop 5 ≠ [] := List.ne_nil_of_mem hqD
      have hlen : 5 < L.length := by
        by_contra hle
        push_neg at hle
        rw [List.drop_eq_nil_of_le hle] at hDne
        exact hDne rfl
      have hpw := sortDesc_pairwise W
      rw [← hL, ← happ] at hpw
      have hTD := (List.pairwise_append.mp hpw).2.2
      constructor
      · rw [List.length_map, hT, List.length_take]
        exact Nat.min_eq_left (le_of_lt hlen)
      · intro p hp
        obtain ⟨kv, hkvT, hfst⟩ := List.mem_map.mp hp
        have hle2 := hTD kv hkvT (q, totalQty orders q) hqD
        have hkvW : kv ∈ W := (sortDesc_perm W).mem_iff.mp (List.take_subset 5 L hkvT)
        have hvkv := (products_pair_spec orders hkvW).2
        rw [← hfst, ← hvkv]
        exact hle2
  case _ =>
    show ∀ c : Int, ∃ t,
        (T.map Prod.fst).filter (fun p => decide (totalQty orders p = c)) ++ t =
          (firstOcc [] (itemNames orders)).filter (fun p => decide (totalQty orders p = c))
    intro c
    have hvalsL : ∀ kv ∈ L, kv.2 = totalQty orders kv.1 := by
      intro kv hkv
      exact (products_pair_spec orders ((sortDesc_perm W).mem_iff.mp hkv)).2
    have hfilT : (T.map Prod.fst).filter (fun p => decide (totalQty orders p = c)) =
        (T.filter (fun kv => decide (kv.2 = c))).map Prod.fst := by
      rw [List.filter_map]
      congr 1
      refine List.filter_congr ?_
      intro kv hkv
      show decide (totalQty orders kv.1 = c) = decide (kv.2 = c)
      rw [hvalsL kv (List.take_subset 5 L hkv)]
    have hfilD : ((L.drop 5).map Prod.fst).filter (fun p => decide (totalQty orders p = c)) =
        ((L.drop 5).filter (fun kv => decide (kv.2 = c))).map Prod.fst := by
      rw [List.filter_map]
      congr 1
      refine List.filter_congr ?_
      intro kv hkv
      show decide (totalQty orders kv.1 = c) = decide (kv.2 = c)
      rw [hvalsL kv (List.drop_subset 5 L hkv)]
    have hfilW : (firstOcc [] (itemNames orders)).filter
          (fun p => decide (totalQty orders p = c)) =
        (W.filter (fun kv => decide (kv.2 = c))).map Prod.fst := by
      have hkeys : keysOf W = firstOcc [] (itemNames orders) := by
        rw [hW, keysOf_wfold]
        rfl
      rw [← hkeys, keysOf]
      rw [List.filter_map]
      congr 1
      refine List.filter_congr ?_
      intro kv hkv
      show decide (totalQty orders kv.1 = c) = decide (kv.2 = c)
      rw [(products_pair_spec orders hkv).2]
    refine ⟨((L.drop 5).filter (fun kv => decide (kv.2 = c))).map Prod.fst, ?_⟩
    rw [hfilT, hfilW, ← List.map_append, ← List.filter_append, List.take_append_drop]
    rw [hL, filter_sortDesc]

/-- Witness for C2 at a concrete input exercising the bounded quantifiers. -/
theorem C2_witness :
    ∃ resp,
      aggregateSalesTrends none
        [⟨⟨2024, 1⟩, 7, [⟨"A", 3⟩, ⟨"B", 1⟩]⟩, ⟨⟨2024, 2⟩, 8, [⟨"A", 2⟩]⟩] = Except.ok resp ∧
      resp.top_products.length ≤ 5 ∧
      List.Pairwise
        (fun p q =>
          totalQty [⟨⟨2024, 1⟩, 7, [⟨"A", 3⟩, ⟨"B", 1⟩]⟩, ⟨⟨2024, 2⟩, 8, [⟨"A", 2⟩]⟩] q ≤
          totalQty [⟨⟨2024, 1⟩, 7, [⟨"A", 3⟩, ⟨"B", 1⟩]⟩, ⟨⟨2024, 2⟩, 8, [⟨"A", 2⟩]⟩] p)
        resp.top_products ∧
      (∀ p ∈ resp.top_products,
        p ∈ itemNames [⟨⟨2024, 1⟩, 7, [⟨"A", 3⟩, ⟨"B", 1⟩]⟩, ⟨⟨2024, 2⟩, 8, [⟨"A", 2⟩]⟩]) ∧
      (∀ q ∈ itemNames [⟨⟨2024, 1⟩, 7, [⟨"A", 3⟩, ⟨"B", 1⟩]⟩, ⟨⟨2024, 2⟩, 8, [⟨"A", 2⟩]⟩],
        q ∉ resp.top_products →
        resp.top_products.length = 5 ∧
        ∀ p ∈ resp.top_products,
          totalQty [⟨⟨2024, 1⟩, 7, [⟨"A", 3⟩, ⟨"B", 1⟩]⟩, ⟨⟨2024, 2⟩, 8, [⟨"A", 2⟩]⟩] q ≤
          totalQty [⟨⟨2024, 1⟩, 7, [⟨"A", 3⟩, ⟨"B", 1⟩]⟩, ⟨⟨2024, 2⟩, 8, [⟨"A", 2⟩]⟩] p) ∧
      (∀ c : Int, ∃ t,
        resp.top_products.filter
          (fun p => decide
            (totalQty [⟨⟨2024, 1⟩, 7, [⟨"A", 3⟩, ⟨"B", 1⟩]⟩, ⟨⟨2024, 2⟩, 8, [⟨"A", 2⟩]⟩] p = c)) ++ t =
          (firstOcc []
            (itemNames [⟨⟨2024, 1⟩, 7, [⟨"A", 3⟩, ⟨"B", 1⟩]⟩, ⟨⟨2024, 2⟩, 8, [⟨"A", 2⟩]⟩])).filter
            (fun p => decide
              (totalQty [⟨⟨2024, 1⟩, 7, [⟨"A", 3⟩, ⟨"B", 1⟩]⟩, ⟨⟨2024, 2⟩, 8, [⟨"A", 2⟩]⟩] p = c))) :=
  C2_top_products none [⟨⟨2024, 1⟩, 7, [⟨"A", 3⟩, ⟨"B", 1⟩]⟩, ⟨⟨2024, 2⟩, 8, [⟨"A", 2⟩]⟩]

/-- C3: an empty order collection yields a normal return with empty
peak_periods and empty top_products. -/
theorem C3_empty_orders (seg : Option String) :
    ∃ resp, aggregateSalesTrends seg [] = Except.ok resp ∧
      resp.peak_periods = [] ∧ resp.top_products = [] :=
  ⟨{ peak_periods := [], top_products := [], customer_trends := [] }, rfl, rfl, rfl⟩

/-- C5: on every collection of well-formed orders the aggregation after the
permission check and store read is total: it never raises and always builds
a SalesTrendsResponse. -/
theorem C5_aggregation_total (seg : Option String) (orders : List Order) :
    ∃ resp, aggregateSalesTrends seg orders = Except.ok resp :=
  ⟨_, aggregateSalesTrends_ok seg orders⟩

/- ### Customer trends -/

theorem lookupKey_addCustomerOrder_self (d : List (Nat × CustTrend)) (c : Nat)
    (seg : Option String) :
    lookupKey c (addCustomerOrder d c seg) =
      some (match lookupKey c d with
            | some t => ⟨t.count + 1, setAdd t.segments seg⟩
            | none => ⟨1, [seg]⟩) := by
  unfold addCustomerOrder
  cases h : lookupKey c d with
  | some t => simp [h, lookupKey_updateVal_self]
  | none =>
      simp only [h, Option.isSome_none, Bool.false_eq_true, if_false]
      rw [lookupKey_updateVal_self, lookupKey_append]
      simp [h, lookupKey, setAdd]

theorem lookupKey_addCustomerOrder_other (d : List (Nat × CustTrend)) {x c : Nat}
    (seg : Option String) (h : x ≠ c) :
    lookupKey x (addCustomerOrder d c seg) = lookupKey x d := by
  unfold addCustomerOrder
  cases hs : (lookupKey c d).isSome with
  | true => simp [hs, lookupKey_updateVal_ne _ _ h]
  | false =>
      simp only [hs, Bool.false_eq_true, if_false]
      rw [lookupKey_updateVal_ne _ _ h, lookupKey_append]
      cases hx : lookupKey x d with
      | some w => simp
      | none => simp [lookupKey, h]

theorem addCustomerOrder_inv (d : List (Nat × CustTrend)) (c : Nat) (seg : Option String)
    (hinv : ∀ c2 t, lookupKey c2 d = some t → t.segments = [seg]) :
    ∀ c2 t, lookupKey c2 (addCustomerOrder d c seg) = some t → t.segments = [seg] := by
  intro c2 t h
  by_cases hx : c2 = c
  · subst hx
    rw [lookupKey_addCustomerOrder_self] at h
    cases hl : lookupKey c2 d with
    | some t2 =>
        rw [hl] at h
        injection h with h2
        rw [← h2]
        show setAdd t2.segments seg = [seg]
        rw [hinv c2 t2 hl]
        simp [setAdd]
    | none =>
        rw [hl] at h
        injection h with h2
        rw [← h2]
  · rw [lookupKey_addCustomerOrder_other d seg hx] at h
    exact hinv c2 t h

theorem custFold_lookup (seg : Option String) :
    ∀ (cids : List Nat) (d : List (Nat × CustTrend)),
      (∀ c t, lookupKey c d = some t → t.segments = [seg]) →
      ∀ cid, lookupKey cid (cids.foldl (fun d c => addCustomerOrder d c seg) d) =
        match lookupKey cid d with
        | some t =>
            some ⟨t.count + (cids.filter (fun c => decide (c = cid))).length, [seg]⟩
        | none =>
            if (cids.filter (fun c => decide (c = cid))).length = 0 then none
            else some ⟨(cids.filter (fun c => decide (c = cid))).length, [seg]⟩ := by
  intro cids
  induction cids with
  | nil =>
      intro d hinv cid
      simp only [List.foldl_nil, List.filter_nil, List.length_nil]
      cases hl : lookupKey cid d with
      | some t =>
          have hseg := hinv cid t hl
          simp only [Nat.add_zero]
          rw [← hseg]
      | none => simp
  | cons c cids ih =>
      intro d hinv cid
      rw [List.foldl_cons]
      rw [ih (addCustomerOrder d c seg) (addCustomerOrder_inv d c seg hinv) cid]
      by_cases hx : cid = c
      · subst hx
        rw [lookupKey_addCustomerOrder_self]
        cases hl : lookupKey cid d with
        | some t =>
            have hseg := hinv cid t hl
            simp only [List.filter_cons, decide_eq_true_eq, if_pos rfl, List.length_cons]
            have harith : t.count + 1 + (cids.filter (fun c2 => decide (c2 = cid))).length =
                t.count + ((cids.filter (fun c2 => decide (c2 = cid))).length + 1) := by omega
            simp [harith]
        | none =>
            simp only [List.filter_cons, decide_eq_true_eq, if_pos rfl, List.length_cons]
            have hne : (cids.filter (fun c2 => decide (c2 = cid))).length + 1 ≠ 0 := by omega
            simp [hne, Nat.add_comm]
      · rw [lookupKey_addCustomerOrder_other d seg hx]
        have hfil : (c :: cids).filter (fun c2 => decide (c2 = cid)) =
            cids.filter (fun c2 => decide (c2 = cid)) := by
          simp [List.filter_cons, Ne.symm hx]
        rw [hfil]

theorem lookupKey_map_custOut (k : Nat) :
    ∀ d : List (Nat × CustTrend),
      lookupKey k (d.map (fun kv => (kv.1, CustTrendOut.mk kv.2.count kv.2.segments))) =
        (lookupKey k d).map (fun t => CustTrendOut.mk t.count t.segments) := by
  intro d
  induction d with
  | nil => simp [lookupKey]
  | cons kv rest ih =>
      by_cases h : k = kv.1 <;> simp [lookupKey, h, ih]

theorem aggLoop_customers_lookup (seg : Option String) (orders : List Order) (cid : Nat) :
    lookupKey cid (aggLoop seg orders).customers_trend =
      if cid ∈ orders.map Order.customerId then
        some ⟨numOrdersOfCustomer orders cid, [seg]⟩
      else none := by
  rw [aggLoop_customers_trend]
  have hinv : ∀ c t, lookupKey c ([] : List (Nat × CustTrend)) = some t → t.segments = [seg] := by
    intro c t h
    simp [lookupKey] at h
  rw [custFold_lookup seg (orders.map Order.customerId) [] hinv cid]
  show (if ((orders.map Order.customerId).filter (fun c => decide (c = cid))).length = 0
    then none else _) = _
  by_cases hmem : cid ∈ orders.map Order.customerId
  · have hpos : ((orders.map Order.customerId).filter (fun c => decide (c = cid))).length ≠ 0 := by
      have hcm : cid ∈ (orders.map Order.customerId).filter (fun c => decide (c = cid)) :=
        List.mem_filter.mpr ⟨hmem, by simp⟩
      intro hzero
      rw [List.length_eq_zero] at hzero
      rw [hzero] at hcm
      cases hcm
    simp only [if_neg hpos, if_pos hmem]
    rfl
  · have hzero : ((orders.map Order.customerId).filter (fun c => decide (c = cid))).length = 0 := by
      rw [List.length_eq_zero]
      refine List.filter_eq_nil_iff.mpr ?_
      intro c hcm
      simp only [decide_eq_true_eq]
      intro heq
      exact hmem (heq ▸ hcm)
    simp [hzero, hmem]

/-- C4: customer_trends maps every customer id occurring in the orders to its
order count and to a one-element segments list holding the caller-supplied
customer_segment filter value itself, and holds no other key. -/
theorem C4_customer_trends (seg : Option String) (orders : List Order) :
    ∃ resp, aggregateSalesTrends seg orders = Except.ok resp ∧
      ∀ cid, lookupKey cid resp.customer_trends =
        if cid ∈ orders.map Order.customerId then
          some (CustTrendOut.mk (numOrdersOfCustomer orders cid) [seg])
        else none := by
  refine ⟨_, aggregateSalesTrends_ok seg orders, ?_⟩
  intro cid
  show lookupKey cid ((aggLoop seg orders).customers_trend.map
      (fun kv => (kv.1, CustTrendOut.mk kv.2.count kv.2.segments))) = _
  rw [lookupKey_map_custOut, aggLoop_customers_lookup]
  by_cases hmem : cid ∈ orders.map Order.customerId <;> simp [hmem]

/- ### Permission gate, route wrapper, and the write-path handlers -/

/-- C6: code bug. The claim (and the spec) describe a permission decision by
exact role membership in the set of SalesManager and AnalyticsManager, but
the generated Role enum has no AnalyticsManager member (annotation at
analyzeSalesTrends_service.py lines 56-57), so evaluating the allowed-role
list raises AttributeError for every present user — including a SalesManager,
for whom the claim predicts a normal, permission-error-free run. No role
membership is ever decided; only an absent user yields the permission error.
The second conjunct evaluates the handler at that failing input. -/
theorem C6_attributeError_on_present_user :
    (∀ (x : User) (seg : Option String) (orders : List Order),
        analyzeSalesTrends (some x) seg orders =
          Except.error (PyError.attributeError "AnalyticsManager")) ∧
    analyzeSalesTrends (some ⟨1, Role.SalesManager⟩) none [] =
      Except.error (PyError.attributeError "AnalyticsManager") :=
  ⟨fun _ _ _ => rfl, rfl⟩

/-- C8: for every request to the route, either the handler raises and the
route returns status 500 with the exception message in the error field, or
the handler returns normally and its body is passed through unchanged. -/
theorem C8_route_wrapper (u : Option User) (seg : Option String) (orders : List Order) :
    (∃ e, analyzeSalesTrends u seg orders = Except.error e ∧
      api_get_analyzeSalesTrends u seg orders = RouteResult.errorResponse 500 e.message) ∨
    (∃ r, analyzeSalesTrends u seg orders = Except.ok r ∧
      api_get_analyzeSalesTrends u seg orders = RouteResult.body r) := by
  cases h : analyzeSalesTrends u seg orders with
  | ok r =>
      right
      exact ⟨r, rfl, by simp [api_get_analyzeSalesTrends, h]⟩
  | error e =>
      left
      exact ⟨e, rfl, by simp [api_get_analyzeSalesTrends, h]⟩

/-- C7: code bug. The claim asserts an execution in which the inventory
decrement succeeds and the subsequent InventoryLog create fails, leaving the
decrement applied. No such execution exists: the update call evaluates the
class-level field access prisma.models.InventoryItem.quantity and raises
AttributeError before any write, so addSalesRecord returns the store
unchanged on every path (first conjunct), and at an input with an existing
item and sufficient stock — the path the claim speaks about — it raises with
the quantity still at 10 (second conjunct). -/
theorem C7_attributeError_before_update :
    (∀ (u : User) (pid : Nat) (q : Int) (st : SalesStore),
        (addSalesRecord u pid q st).2 = st) ∧
    addSalesRecord ⟨7, Role.SalesManager⟩ 1 4 ⟨[⟨1, 10⟩], []⟩ =
      (Except.error
        (PyError.attributeError "type object InventoryItem has no attribute quantity"),
       ⟨[⟨1, 10⟩], []⟩) := by
  constructor
  · intro u pid q st
    unfold addSalesRecord
    cases st.inventory.find? (fun it => it.id == pid) with
    | none => rfl
    | some it => by_cases h : it.quantity < q <;> simp [h]
  · rfl

/-- C9: when the role is Admin or OrderFulfillmentOfficer and the order
exists, deleteOrder raises the NameError for the undefined name asyncio
before any write, leaving the store (and so the order) untouched; the
success response is unreachable on that path. -/
theorem C9_deleteOrder_nameError (u : User) (orderId : Nat) (st : OrderStore)
    (hrole : u.role = Role.Admin ∨ u.role = Role.OrderFulfillmentOfficer)
    (hord : ∃ o, st.orders.find? (fun o => o.id == orderId) = some o) :
    deleteOrder u orderId st =
      (Except.error (PyError.nameError "name asyncio is not defined"), st) := by
  obtain ⟨o, ho⟩ := hord
  unfold deleteOrder
  rw [if_pos hrole, ho]

/-- Witness for C9: an Admin deleting an existing order hits the NameError. -/
theorem C9_witness :
    ((⟨1, Role.Admin⟩ : User).role = Role.Admin ∨
      (⟨1, Role.Admin⟩ : User).role = Role.OrderFulfillmentOfficer) ∧
    (∃ o, (⟨[⟨5, []⟩], []⟩ : OrderStore).orders.find? (fun o => o.id == 5) = some o) ∧
    deleteOrder ⟨1, Role.Admin⟩ 5 ⟨[⟨5, []⟩], []⟩ =
      (Except.error (PyError.nameError "name asyncio is not defined"), ⟨[⟨5, []⟩], []⟩) :=
  ⟨Or.inl rfl, ⟨⟨5, []⟩, rfl⟩,
    C9_deleteOrder_nameError ⟨1, Role.Admin⟩ 5 ⟨[⟨5, []⟩], []⟩ (Or.inl rfl) ⟨⟨5, []⟩, rfl⟩⟩

/-- C10: on the two error branches of deleteSalesRecord (role outside the
allowed set, or order item missing) the response has success = false and the
store is returned unchanged: no inventory update, no log creation, no
deletion. -/
theorem C10_deleteSalesRecord_no_writes (u : User) (id : Nat) (st : SalesDelStore)
    (h : ¬(u.role = Role.SalesManager ∨ u.role = Role.Admin) ∨
      st.orderItems.find? (fun oi => oi.id == id) = none) :
    (deleteSalesRecord u id st).1.success = false ∧ (deleteSalesRecord u id st).2 = st := by
  rcases h with h | h
  · unfold deleteSalesRecord
    rw [if_neg h]
    exact ⟨rfl, rfl⟩
  · by_cases hr : u.role = Role.SalesManager ∨ u.role = Role.Admin
    · unfold deleteSalesRecord
      rw [if_pos hr, h]
      exact ⟨rfl, rfl⟩
    · unfold deleteSalesRecord
      rw [if_neg hr]
      exact ⟨rfl, rfl⟩

/-- Witness for C10: an InventoryManager is refused and nothing is written. -/
theorem C10_witness :
    (¬((⟨2, Role.InventoryManager⟩ : User).role = Role.SalesManager ∨
        (⟨2, Role.InventoryManager⟩ : User).role = Role.Admin) ∨
      (⟨[], [], []⟩ : SalesDelStore).orderItems.find? (fun oi => oi.id == 3) = none) ∧
    (deleteSalesRecord ⟨2, Role.InventoryManager⟩ 3 ⟨[], [], []⟩).1.success = false ∧
    (deleteSalesRecord ⟨2, Role.InventoryManager⟩ 3 ⟨[], [], []⟩).2 = ⟨[], [], []⟩ :=
  ⟨Or.inl (by decide),
    (C10_deleteSalesRecord_no_writes ⟨2, Role.InventoryManager⟩ 3 ⟨[], [], []⟩
      (Or.inl (by decide))).1,
    (C10_deleteSalesRecord_no_writes ⟨2, Role.InventoryManager⟩ 3 ⟨[], [], []⟩
      (Or.inl (by decide))).2⟩
